import Mathlib

/-!
# Verification of the workflow orchestration engine

A shallow embedding of `count-r-server/workflow_orchestrator.py`: the
workflow registry, the dependency (cycle) validator, the scheduler loop,
per-step condition/parameter/validation handling, and the execution store,
together with theorems settling the specification claims about them.

Python dictionaries are embedded as association lists with in-place update
semantics (`dictSet` replaces the value at the existing position of a key,
else appends).  Python values flowing through step parameters and step
results are embedded as the inductive `Value` type (strings, integers,
booleans and string-keyed records, which is the universe these code paths
construct and inspect).  Wall-clock instants (`time.time()`, `datetime.now()`)
are embedded as `Nat` parameters supplied by the caller.  The `while` loop of
`_execute_workflow_async` is embedded with an explicit fuel parameter, since
(as proved below) the source loop does not terminate on all inputs; running
out of fuel returns the in-flight state unchanged, i.e. it observes a still
running loop.
-/

/-- Embedding of the Python values the orchestrator's step machinery builds
and inspects: strings, ints, bools, and string-keyed dicts (used for step
result records stored into `execution.results`). -/
inductive Value where
  | vStr (s : String)
  | vInt (n : Int)
  | vBool (b : Bool)
  | vDict (kvs : List (String × Value))
deriving Repr

mutual

/-- Decidable equality for `Value` (the nested dict constructor rules out
the derived instance). -/
def Value.decEq : (a b : Value) → Decidable (a = b)
  | .vStr a, .vStr b =>
      if h : a = b then .isTrue (by rw [h]) else .isFalse (fun hc => by cases hc; exact h rfl)
  | .vInt a, .vInt b =>
      if h : a = b then .isTrue (by rw [h]) else .isFalse (fun hc => by cases hc; exact h rfl)
  | .vBool a, .vBool b =>
      if h : a = b then .isTrue (by rw [h]) else .isFalse (fun hc => by cases hc; exact h rfl)
  | .vDict a, .vDict b =>
      match Value.decEqList a b with
      | .isTrue h => .isTrue (by rw [h])
      | .isFalse h => .isFalse (fun hc => by cases hc; exact h rfl)
  | .vStr _, .vInt _ => .isFalse (fun h => by cases h)
  | .vStr _, .vBool _ => .isFalse (fun h => by cases h)
  | .vStr _, .vDict _ => .isFalse (fun h => by cases h)
  | .vInt _, .vStr _ => .isFalse (fun h => by cases h)
  | .vInt _, .vBool _ => .isFalse (fun h => by cases h)
  | .vInt _, .vDict _ => .isFalse (fun h => by cases h)
  | .vBool _, .vStr _ => .isFalse (fun h => by cases h)
  | .vBool _, .vInt _ => .isFalse (fun h => by cases h)
  | .vBool _, .vDict _ => .isFalse (fun h => by cases h)
  | .vDict _, .vStr _ => .isFalse (fun h => by cases h)
  | .vDict _, .vInt _ => .isFalse (fun h => by cases h)
  | .vDict _, .vBool _ => .isFalse (fun h => by cases h)

/-- Decidable equality for dict payloads of `Value`. -/
def Value.decEqList : (a b : List (String × Value)) → Decidable (a = b)
  | [], [] => .isTrue rfl
  | [], _ :: _ => .isFalse (fun h => by cases h)
  | _ :: _, [] => .isFalse (fun h => by cases h)
  | (k, v) :: r, (k', v') :: r' =>
      if hk : k = k' then
        match Value.decEq v v' with
        | .isTrue hv =>
          match Value.decEqList r r' with
          | .isTrue hr => .isTrue (by rw [hk, hv, hr])
          | .isFalse hr => .isFalse (fun h => by injection h with h1 h2; exact hr h2)
        | .isFalse hv => .isFalse (fun h => by
            injection h with h1 h2; injection h1 with ha hb; exact hv hb)
      else .isFalse (fun h => by
        injection h with h1 h2; injection h1 with ha hb; exact hk ha)

end

instance : DecidableEq Value := Value.decEq

/-- `d[k]` lookup on an association-list dict: the value at the first
occurrence of the key. -/
def dictGet {α : Type} (l : List (String × α)) (k : String) : Option α :=
  match l with
  | [] => none
  | (k', v) :: rest => if k' == k then some v else dictGet rest k

/-- `d[k] = v` on an association-list dict: replaces the value at the
existing position of `k`, else appends, matching Python dict update. -/
def dictSet {α : Type} (l : List (String × α)) (k : String) (v : α) :
    List (String × α) :=
  match l with
  | [] => [(k, v)]
  | (k', v') :: rest =>
      if k' == k then (k, v) :: rest else (k', v') :: dictSet rest k v

/-- `k in d` on an association-list dict. -/
def dictContains {α : Type} (l : List (String × α)) (k : String) : Bool :=
  (dictGet l k).isSome

/-- Python `set.add` on a duplicate-free list embedding of a set. -/
def insertIfAbsent (l : List String) (x : String) : List String :=
  if l.contains x then l else x :: l

/-- Embedding of `WorkflowStatus`. -/
inductive WorkflowStatus where
  | pending
  | running
  | completed
  | failed
  | cancelled
deriving Repr, DecidableEq

/-- Embedding of the `validation_rules` dict of a step.  The source stores a
`Dict[str, Any]` but `_validate_step_result` only ever reads the keys
`required_fields` (a list of strings) and `expected_status`; a dict without
either key validates every result, which `none`/`none` reproduces. -/
structure ValidationRules where
  required_fields : Option (List String) := none
  expected_status : Option Value := none
deriving Repr, DecidableEq

/-- Embedding of the `WorkflowStep` dataclass.  `condition = none` embeds
Python `condition = None`. -/
structure WorkflowStep where
  name : String
  description : String := ""
  tool_name : String := ""
  parameters : List (String × Value) := []
  validation_rules : ValidationRules := {}
  retry_count : Nat := 0
  max_retries : Nat := 3
  timeout : Nat := 30
  depends_on : List String := []
  condition : Option String := none
deriving Repr, DecidableEq

/-- Embedding of the `WorkflowExecution` dataclass.  `results` maps a step
name to its result record (a `Value.vDict`); timestamps are `Nat` instants. -/
structure WorkflowExecution where
  workflow_id : String
  workflow_name : String
  steps : List WorkflowStep
  status : WorkflowStatus := .pending
  current_step : Nat := 0
  results : List (String × Value) := []
  errors : List String := []
  start_time : Option Nat := none
  end_time : Option Nat := none
  metadata : List (String × Value) := []
deriving Repr, DecidableEq

/-- Embedding of the `WorkflowOrchestrator` mutable state: the three dicts
`self.workflows`, `self.executions` and `self.step_results`. -/
structure Orchestrator where
  workflows : List (String × List WorkflowStep) := []
  executions : List (String × WorkflowExecution) := []
  stepResults : List (String × List (String × Value)) := []
deriving Repr, DecidableEq

/-- A fresh `WorkflowOrchestrator()`. -/
def Orchestrator.empty : Orchestrator := {}

/-- One fuel unit per nesting level of `has_cycle`; each recursing level adds
a name drawn from the steps' own names or their `depends_on` lists to
`visited` and never revisits it, so this bound strictly exceeds the deepest
possible recursion and the fuel-exhaustion branch is unreachable from
`hasCircularDependencies`. -/
def cycleFuel (steps : List WorkflowStep) : Nat :=
  steps.length + (steps.map (fun s => s.depends_on.length)).sum + 1

/-- The `depends_on` edges leaving `name`, as `has_cycle` sees them: the
`next((s for s in steps if s.name == step_name), None)` lookup takes the
first step of that name, and an unmatched name contributes no edges. -/
def depsOf (steps : List WorkflowStep) (name : String) : List String :=
  match steps.find? (fun s => s.name == name) with
  | some s => s.depends_on
  | none => []

/-- Embedding of the inner recursive `has_cycle(step_name)` of
`_has_circular_dependencies`.  The mutable `visited` set is threaded through
and returned; `rec_stack` is passed downward only, which reproduces the
add/remove discipline of the source (on a `False` return the stack is
restored, and on a `True` return every frame returns immediately so the
stack's final state is unobservable).  Exhausted fuel reports `true`, which
(see `cycleFuel`) is never reached from the entry point. -/
def hasCycleFrom (steps : List WorkflowStep) :
    Nat → String → List String → List String → Bool × List String
  | 0, _, visited, _ => (true, visited)
  | fuel + 1, name, visited, recStack =>
    if recStack.contains name then (true, visited)
    else if visited.contains name then (false, visited)
    else
      let visited1 := name :: visited
      let recStack1 := name :: recStack
      (depsOf steps name).foldl
        (fun acc dep =>
          if acc.1 then acc
          else hasCycleFrom steps fuel dep acc.2 recStack1)
        (false, visited1)

/-- Embedding of `_has_circular_dependencies`: run `has_cycle` from every
step name, sharing the `visited` set, stopping at the first detection. -/
def hasCircularDependencies (steps : List WorkflowStep) : Bool :=
  (steps.foldl
    (fun acc step =>
      if acc.1 then acc
      else hasCycleFrom steps (cycleFuel steps) step.name acc.2 [])
    (false, [])).1

/-- Embedding of `register_workflow`.  The source logs and returns `False`
on an empty step list or a detected cycle and otherwise stores the steps;
its `except` clause also returns `False`, but no statement of the guarded
block can raise, so the embedding is total with these two failure paths. -/
def registerWorkflow (o : Orchestrator) (name : String)
    (steps : List WorkflowStep) : Bool × Orchestrator :=
  if steps.isEmpty then (false, o)
  else if hasCircularDependencies steps then (false, o)
  else (true, { o with workflows := dictSet o.workflows name steps })

/-- Embedding of `execute_workflow`.  The source raises `ValueError` to its
caller when the name is not registered (the `except` clause re-raises), which
the `Except.error` branch embeds; on success it stores a fresh pending
execution, spawns the background loop, and returns the id synchronously.
`now` embeds `int(time.time())`. -/
def executeWorkflow (o : Orchestrator) (workflowName : String)
    (initialData : List (String × Value)) (now : Nat) :
    Except String (String × Orchestrator) :=
  match dictGet o.workflows workflowName with
  | none => .error ("Workflow '" ++ workflowName ++ "' not found")
  | some steps =>
    let workflowId := workflowName ++ "_" ++ toString now
    let exec : WorkflowExecution :=
      { workflow_id := workflowId
        workflow_name := workflowName
        steps := steps
        metadata := initialData }
    .ok (workflowId,
      { o with
          executions := dictSet o.executions workflowId exec
          stepResults := dictSet o.stepResults workflowId [] })

/-- Embedding of `cancel_execution`: flips a `running` execution to
`cancelled` and stamps `end_time` (the instant `now`); any other current
status, or an unknown id, returns `false` and leaves the store untouched. -/
def cancelExecution (o : Orchestrator) (executionId : String) (now : Nat) :
    Bool × Orchestrator :=
  match dictGet o.executions executionId with
  | none => (false, o)
  | some exec =>
    if exec.status = .running then
      let stamped := { exec with status := .cancelled, end_time := some now }
      (true, { o with executions := dictSet o.executions executionId stamped })
    else (false, o)

/-- Embedding of `_validate_step_result`.  The body's own statements cannot
raise, so the `except` clause is dead and the function is total. -/
def validateStepResult (result : List (String × Value))
    (rules : ValidationRules) : Bool :=
  if rules = {} then true
  else
    (match rules.required_fields with
     | some fields => fields.all (fun f => dictContains result f)
     | none => true)
    &&
    (match rules.expected_status with
     | some expected =>
        match dictGet result "status" with
        | some v => decide (v = expected)
        | none => false
     | none => true)

/-- Embedding of Python `str.startswith`, computed on the character lists
(so that concrete runs reduce inside the kernel). -/
def pyStartsWith (s pre : String) : Bool :=
  pre.data.isPrefixOf s.data

/-- Embedding of Python `str.endswith`, computed on the character lists. -/
def pyEndsWith (s suf : String) : Bool :=
  suf.data.isSuffixOf s.data

/-- Embedding of the Python slice `value[2:-2]`: drop two characters from
each end. -/
def pySlice2 (s : String) : String :=
  ⟨((s.data.drop 2).dropLast).dropLast⟩

/-- Embedding of Python `str.strip()`: remove leading and trailing
whitespace. -/
def pyStrip (s : String) : String :=
  ⟨((s.data.dropWhile Char.isWhitespace).reverse.dropWhile
      Char.isWhitespace).reverse⟩

/-- Embedding of `_prepare_parameters`: a string parameter value wrapped in
double braces is replaced by the context entry named by the stripped inner
text (`value[2:-2].strip()`) when one exists, and is passed through as the
original literal string otherwise; every other value is copied unchanged. -/
def prepareParameters (parameters : List (String × Value))
    (context : List (String × Value)) : List (String × Value) :=
  parameters.map (fun kv =>
    match kv with
    | (key, .vStr s) =>
      if pyStartsWith s "\x7b\x7b" && pyEndsWith s "\x7d\x7d" then
        let varName := pyStrip (pySlice2 s)
        match dictGet context varName with
        | some contextValue => (key, contextValue)
        | none => (key, .vStr s)
      else (key, .vStr s)
    | (key, v) => (key, v))

/-- The external capability boundary: `_call_mcp_tool`'s observable contract,
`(tool_name, parameters, timeout) → result record`. -/
abbrev ToolClient := String → List (String × Value) → Nat → List (String × Value)

/-- A condition evaluator, the observable contract of `_evaluate_condition`:
`(condition, results context) → Bool`. -/
abbrev CondEval := String → List (String × Value) → Bool

/-- Embedding of `_evaluate_condition` restricted to literal condition
strings: Python `eval` maps the literal `"True"` to true, the literal
`"False"` to false, and the method's `except` clause maps any failing
evaluation to `False` as well.  Only such literal conditions appear in the
concrete runs below. -/
def evalCondLiteral (condition : String)
    (_context : List (String × Value)) : Bool :=
  condition == "True"

/-- The mock result `_execute_step` builds when `self.mcp_client` is absent. -/
def mockResult (stepName : String) : List (String × Value) :=
  [("status", .vStr "success"), ("data", .vStr ("Mock result for " ++ stepName))]

/-- The condition gate of `_execute_step`: Python's `if step.condition:`
is truthiness, so a `None` or empty-string condition runs the step
unconditionally; a present nonempty condition is evaluated against the
passed `execution.results` context. -/
def stepProceed (evalCond : CondEval) (results : List (String × Value))
    (step : WorkflowStep) : Bool :=
  match step.condition with
  | none => true
  | some c => if c == "" then true else evalCond c results

/-- The result record a step obtains: `_call_mcp_tool` through the client
when one is configured, else the inline mock record built from the step
name. -/
def toolResult (client : Option ToolClient) (step : WorkflowStep)
    (params : List (String × Value)) : List (String × Value) :=
  match client with
  | some call => call step.tool_name params step.timeout
  | none => mockResult step.name

/-- Embedding of `_execute_step`.  When the condition gate evaluates false
the method returns `True` immediately: nothing is recorded and no
capability is invoked.  Otherwise parameters are bound against
`execution.results`, the capability (or the mock) produces a result, and on
successful validation the result is stored into `execution.results` and the
per-execution `step_results` mirror `sr`. -/
def executeStep (client : Option ToolClient) (evalCond : CondEval)
    (exec : WorkflowExecution) (sr : List (String × Value))
    (step : WorkflowStep) :
    Bool × WorkflowExecution × List (String × Value) :=
  if stepProceed evalCond exec.results step then
    let result :=
      toolResult client step (prepareParameters step.parameters exec.results)
    if validateStepResult result step.validation_rules then
      (true,
       { exec with results := dictSet exec.results step.name (.vDict result) },
       dictSet sr step.name (.vDict result))
    else (false, exec, sr)
  else (true, exec, sr)

/-- The ready computation of `_execute_workflow_async`: the not-yet-executed
steps (with their indices) whose `depends_on` entries all lie in `executed`. -/
def readySteps (steps : List WorkflowStep) (executed : List String) :
    List (Nat × WorkflowStep) :=
  steps.enum.filter (fun p =>
    !executed.contains p.2.name
      && p.2.depends_on.all (fun dep => executed.contains dep))

/-- The inner `for step_index, step in ready_steps` loop of
`_execute_workflow_async`: on success add the step to `executed` and advance
`current_step`; on the first failure set status `failed`, append
`Step '<name>' failed`, and `break` — which abandons only the remainder of
this round (the enclosing `while` is re-entered by `execLoop`). -/
def runRound (client : Option ToolClient) (evalCond : CondEval) :
    List (Nat × WorkflowStep) → WorkflowExecution → List (String × Value) →
    List String → WorkflowExecution × List (String × Value) × List String
  | [], exec, sr, executed => (exec, sr, executed)
  | (i, step) :: rest, exec, sr, executed =>
    let res := executeStep client evalCond exec sr step
    if res.1 then
      runRound client evalCond rest { res.2.1 with current_step := i + 1 }
        res.2.2 (insertIfAbsent executed step.name)
    else
      ({ res.2.1 with
           status := .failed
           errors := res.2.1.errors ++ ["Step '" ++ step.name ++ "' failed"] },
       res.2.2, executed)

/-- Embedding of the `while len(executed_steps) < len(execution.steps)` loop
of `_execute_workflow_async`, with explicit fuel (one unit per iteration;
running out of fuel returns the in-flight state, observing a loop that is
still running).  Note that after a failed round the loop is re-entered with
the failed step still eligible, exactly as in the source. -/
def execLoop (client : Option ToolClient) (evalCond : CondEval) :
    Nat → WorkflowExecution → List (String × Value) → List String →
    WorkflowExecution × List (String × Value) × List String
  | 0, exec, sr, executed => (exec, sr, executed)
  | fuel + 1, exec, sr, executed =>
    if executed.length < exec.steps.length then
      let ready := readySteps exec.steps executed
      if ready.isEmpty then
        ({ exec with
             status := .failed
             errors := exec.errors ++ ["No steps ready to execute - possible deadlock"] },
         sr, executed)
      else
        let out := runRound client evalCond ready exec sr executed
        execLoop client evalCond fuel out.1 out.2.1 out.2.2
    else (exec, sr, executed)

/-- Embedding of `_execute_workflow_async`: mark the execution running and
stamp `start_time`, drive the loop, then promote a still-`running` status to
`completed` and stamp `end_time`.  The post-loop statements of the source run
only when the loop exits, so they are meaningful here only at fuel large
enough for `execLoop` to have terminated on its own; theorems about
non-terminating runs are stated against `execLoop` directly. -/
def executeWorkflowAsync (client : Option ToolClient) (evalCond : CondEval)
    (fuel : Nat) (exec : WorkflowExecution) (sr : List (String × Value))
    (startTime endTime : Nat) :
    WorkflowExecution × List (String × Value) × List String :=
  let entry := { exec with status := .running, start_time := some startTime }
  let out := execLoop client evalCond fuel entry sr []
  let exec1 :=
    if out.1.status = .running then { out.1 with status := .completed }
    else out.1
  ({ exec1 with end_time := some endTime }, out.2.1, out.2.2)

/-! ## The dependency graph of a step list -/

/-- A `depends_on` edge of a step list: some step named `a` lists `b`. -/
def stepEdge (steps : List WorkflowStep) (a b : String) : Prop :=
  ∃ s ∈ steps, s.name = a ∧ b ∈ s.depends_on

/-- The edge relation as `has_cycle` resolves it: via the first step of each
name.  When step names are pairwise distinct this agrees with `stepEdge`. -/
def stepEdgeFst (steps : List WorkflowStep) (a b : String) : Prop :=
  b ∈ depsOf steps a

/-- Reachability along first-match `depends_on` edges. -/
def StepReaches (steps : List WorkflowStep) : String → String → Prop :=
  Relation.ReflTransGen (stepEdgeFst steps)

/-- The `depends_on` edges of `steps` contain a (nonempty) cycle. -/
def StepsHaveCycle (steps : List WorkflowStep) : Prop :=
  ∃ a b, stepEdge steps a b ∧ Relation.ReflTransGen (stepEdge steps) b a

/-- `name` is fully processed at `visited = V` with pending stack `R`:
everything it reaches is in `V`, it reaches nothing on `R`, and it lies on
no cycle. -/
def Settled (steps : List WorkflowStep) (R V : List String) (name : String) :
    Prop :=
  (∀ m, StepReaches steps name m → m ∈ V)
    ∧ (∀ r ∈ R, ¬ StepReaches steps name r)
    ∧ ¬ ∃ d, stepEdgeFst steps name d ∧ StepReaches steps d name

/-- The invariant `has_cycle` maintains over its `visited`/`rec_stack`
state when it has not yet detected a cycle: every visited name that is not
on the recursion stack is settled. -/
def CycleInv (steps : List WorkflowStep) (V R : List String) : Prop :=
  ∀ x ∈ V, x ∉ R → Settled steps R V x

/-! ## Concrete fixtures for the counterexamples and witnesses -/

/-- A step whose result (always the mock record, which has only `status` and
`data` keys) is missing the required field `absent`, so its validation
always fails. -/
def stepS : WorkflowStep :=
  { name := "s", validation_rules := { required_fields := some ["absent"] } }

/-- The loop state of an execution of the one-step workflow `[stepS]` with
accumulated errors `E` and status `st`. -/
def failExec (E : List String) (st : WorkflowStatus) : WorkflowExecution :=
  { workflow_id := "w_0", workflow_name := "w", steps := [stepS]
    status := st, errors := E }

/-- A step whose condition is the literal `False`, so it is skipped. -/
def stepA : WorkflowStep := { name := "A", condition := some "False" }

/-- A step depending on the skipped `stepA`. -/
def stepB : WorkflowStep := { name := "B", depends_on := ["A"] }

/-- The running execution of the two-step workflow `[stepA, stepB]`. -/
def execAB : WorkflowExecution :=
  { workflow_id := "ab_0", workflow_name := "ab", steps := [stepA, stepB]
    status := .running }

/-- A step depending on a name that no step of its workflow carries. -/
def stepU : WorkflowStep := { name := "a", depends_on := ["missing"] }

/-- The running execution of the one-step workflow `[stepU]`. -/
def execU : WorkflowExecution :=
  { workflow_id := "u_0", workflow_name := "u", steps := [stepU]
    status := .running }

/-- First of two steps sharing the name `a`. -/
def dupA1 : WorkflowStep := { name := "a" }

/-- Second of two steps sharing the name `a`; it depends on itself. -/
def dupA2 : WorkflowStep := { name := "a", depends_on := ["a"] }

/-- A two-step workflow with a dependency cycle `ca → cb → ca`. -/
def cycSteps : List WorkflowStep :=
  [{ name := "ca", depends_on := ["cb"] }, { name := "cb", depends_on := ["ca"] }]

/-- Distinct one-step definitions for observing re-registration. -/
def stepOne : WorkflowStep := { name := "one" }

/-- See `stepOne`. -/
def stepTwo : WorkflowStep := { name := "two" }

/-- The orchestrator after registering `"w" ↦ [stepOne]`. -/
def oRegOne : Orchestrator :=
  (registerWorkflow Orchestrator.empty "w" [stepOne]).2

/-- A capability that echoes the parameters it received inside its result
record, to observe what the parameter binder passed to the tool call. -/
def echoClient : ToolClient := fun _toolName params _timeout =>
  [("status", .vStr "success"), ("got", .vDict params)]

/-- An execution whose `metadata` binds `k` while `results` does not. -/
def execMeta : WorkflowExecution :=
  { workflow_id := "m_0", workflow_name := "m", steps := []
    metadata := [("k", .vStr "V")] }

/-- A step with a double-brace template parameter naming `k`. -/
def stepTemplate : WorkflowStep :=
  { name := "t", parameters := [("p", .vStr "\x7b\x7bk\x7d\x7d")] }

/-- A stored running execution, for exercising `cancel_execution`. -/
def execRunning : WorkflowExecution :=
  { workflow_id := "r_1", workflow_name := "r", steps := [stepOne]
    status := .running }

/-- A stored completed execution, for exercising `cancel_execution`. -/
def execCompleted : WorkflowExecution :=
  { workflow_id := "c_1", workflow_name := "c", steps := [stepOne]
    status := .completed }

/-- An execution store holding `execRunning` and `execCompleted`. -/
def oStore : Orchestrator :=
  { executions := [("r_1", execRunning), ("c_1", execCompleted)] }

/-- The orchestrator after starting `"w"` at second `7` with metadata
`run = 1`. -/
def oRunA : Orchestrator :=
  match executeWorkflow oRegOne "w" [("run", .vInt 1)] 7 with
  | .ok p => p.2
  | .error _ => oRegOne

/-- The orchestrator after starting `"w"` again during the same second `7`,
now with metadata `run = 2`. -/
def oRunB : Orchestrator :=
  match executeWorkflow oRunA "w" [("run", .vInt 2)] 7 with
  | .ok p => p.2
  | .error _ => oRunA

/-! ## Dictionary lemmas -/

theorem dictGet_dictSet_self {α : Type} (l : List (String × α)) (k : String)
    (v : α) : dictGet (dictSet l k v) k = some v := by
  induction l with
  | nil => simp [dictSet, dictGet]
  | cons hd tl ih =>
    obtain ⟨k', v'⟩ := hd
    by_cases h : k' = k
    · simp [dictSet, dictGet, h]
    · simp [dictSet, dictGet, h, ih]

/-! ## C1: failure handling in the execution loop -/

/-- One iteration of the loop on the always-failing one-step workflow:
the step fails validation, an error is appended, status becomes `failed`,
and the loop is re-entered with the step still unexecuted. -/
theorem execLoop_failExec_step (fuel : Nat) (E : List String)
    (st : WorkflowStatus) :
    execLoop none evalCondLiteral (fuel + 1) (failExec E st) [] [] =
      execLoop none evalCondLiteral fuel
        (failExec (E ++ ["Step 's' failed"]) .failed) [] [] := rfl

/-- Closed form of the loop on the always-failing one-step workflow. -/
theorem execLoop_failExec (fuel : Nat) (E : List String)
    (st : WorkflowStatus) :
    execLoop none evalCondLiteral fuel (failExec E st) [] [] =
      (failExec (E ++ List.replicate fuel "Step 's' failed")
        (if fuel = 0 then st else .failed), [], []) := by
  induction fuel generalizing E st with
  | zero => simp [execLoop]
  | succ n ih =>
    rw [execLoop_failExec_step, ih]
    simp [List.replicate_succ, List.append_assoc]

/-- C1: on a step whose result fails validation, the loop does **not**
abort the execution after appending one error.  On the one-step workflow
`[stepS]` (whose mock result always fails validation), the loop appends
`Step 's' failed` once per iteration — `fuel` iterations yield `fuel`
copies — the status is set to `failed` yet the step is never added to the
executed set, so the loop re-dispatches (retries) the failed step forever
and never terminates. -/
theorem C1_failed_step_retried_forever :
    ∀ fuel : Nat,
      (execLoop none evalCondLiteral fuel (failExec [] .running) [] []).1.errors
          = List.replicate fuel "Step 's' failed"
        ∧ (execLoop none evalCondLiteral (fuel + 1)
            (failExec [] .running) [] []).1.status = .failed
        ∧ (execLoop none evalCondLiteral fuel
            (failExec [] .running) [] []).2.2 = [] := by
  intro fuel
  refine ⟨?_, ?_, ?_⟩ <;> rw [execLoop_failExec] <;> simp [failExec]

/-! ## C2: unknown dependencies at registration -/

/-- C2: counterexample.  `stepU` depends on `missing`, which names no step
of its workflow, yet `register_workflow` accepts the registration and
stores the workflow. -/
theorem C2_counterexample :
    stepU.depends_on = ["missing"]
      ∧ (([stepU].map WorkflowStep.name).contains "missing") = false
      ∧ (registerWorkflow Orchestrator.empty "wu" [stepU]).1 = true
      ∧ dictGet (registerWorkflow Orchestrator.empty "wu" [stepU]).2.workflows
          "wu" = some [stepU] :=
  ⟨rfl, rfl, rfl, rfl⟩

/-- C2 (amended): `register_workflow` performs no reference-integrity
check: any nonempty step list passing the cycle check is accepted and
stored even when some `depends_on` entry names no step of the list; the
missing dependency surfaces only at execution time, as a deadlock error
(shown on the concrete workflow `[stepU]`). -/
theorem C2_amended_unknown_dependency_accepted :
    (∀ (o : Orchestrator) (name : String) (steps : List WorkflowStep),
        (∃ s ∈ steps, ∃ d ∈ s.depends_on, ∀ t ∈ steps, t.name ≠ d) →
        steps.isEmpty = false → hasCircularDependencies steps = false →
        registerWorkflow o name steps =
          (true, { o with workflows := dictSet o.workflows name steps }))
      ∧ (execLoop none evalCondLiteral 5 execU [] []).1.status = .failed
      ∧ (execLoop none evalCondLiteral 5 execU [] []).1.errors
          = ["No steps ready to execute - possible deadlock"] := by
  refine ⟨?_, rfl, rfl⟩
  intro o name steps _ hempty hcirc
  simp [registerWorkflow, hempty, hcirc]

/-- Witness for `C2_amended_unknown_dependency_accepted`. -/
theorem C2_amended_witness :
    registerWorkflow Orchestrator.empty "wu2" [stepU] =
      (true, { Orchestrator.empty with
        workflows := dictSet Orchestrator.empty.workflows "wu2" [stepU] }) :=
  C2_amended_unknown_dependency_accepted.1 Orchestrator.empty "wu2" [stepU]
    ⟨stepU, by decide, "missing", by decide, by decide⟩ (by decide) (by decide)

/-! ## C3: duplicate workflow names at registration -/

/-- C3: counterexample.  `"w"` is already registered (to `[stepOne]`), yet
a second registration under the same name succeeds and replaces the stored
definition with `[stepTwo]`. -/
theorem C3_counterexample :
    dictGet oRegOne.workflows "w" = some [stepOne]
      ∧ (registerWorkflow oRegOne "w" [stepTwo]).1 = true
      ∧ dictGet (registerWorkflow oRegOne "w" [stepTwo]).2.workflows "w"
          = some [stepTwo]
      ∧ [stepTwo] ≠ [stepOne] :=
  ⟨rfl, rfl, rfl, by decide⟩

/-- C3 (amended): re-registering an already-registered name does not fail:
any nonempty, cycle-free step list is accepted and the stored definition is
replaced by the new one. -/
theorem C3_amended_reregistration_overwrites :
    ∀ (o : Orchestrator) (name : String) (steps : List WorkflowStep),
      dictContains o.workflows name = true →
      steps.isEmpty = false → hasCircularDependencies steps = false →
      (registerWorkflow o name steps).1 = true
        ∧ dictGet (registerWorkflow o name steps).2.workflows name
            = some steps := by
  intro o name steps _ hempty hcirc
  refine ⟨?_, ?_⟩ <;> simp [registerWorkflow, hempty, hcirc]
  exact dictGet_dictSet_self o.workflows name steps

/-- Witness for `C3_amended_reregistration_overwrites`. -/
theorem C3_amended_witness :
    (registerWorkflow oRegOne "w" [stepTwo]).1 = true
      ∧ dictGet (registerWorkflow oRegOne "w" [stepTwo]).2.workflows "w"
          = some [stepTwo] :=
  C3_amended_reregistration_overwrites oRegOne "w" [stepTwo]
    (by decide) (by decide) (by decide)

/-! ## C4: skipped steps -/

/-- C4: counterexample.  In the run of `[stepA, stepB]` (where `stepA`'s
condition `"False"` evaluates false), the skipped step `A` is added to the
executed set and its dependent `B` runs to completion — but **no** result
(with status `"skipped"` or otherwise) is recorded for `A`. -/
theorem C4_counterexample :
    stepA.condition = some "False"
      ∧ evalCondLiteral "False" [] = false
      ∧ dictGet (executeWorkflowAsync none evalCondLiteral 5 execAB [] 0 1).1.results
          "A" = none
      ∧ (executeWorkflowAsync none evalCondLiteral 5 execAB [] 0 1).2.2 = ["B", "A"]
      ∧ (executeWorkflowAsync none evalCondLiteral 5 execAB [] 0 1).1.status
          = .completed :=
  ⟨rfl, rfl, rfl, rfl, rfl⟩

/-- C4 (amended): a step whose condition evaluates false is reported as
successfully handled without its capability being invoked and without any
result entry being recorded (`execution.results` and the step-results
mirror are returned unchanged, for every client); the round loop then adds
the step to the executed set, so dependents still become ready. -/
theorem C4_amended_skip_records_nothing :
    (∀ (client : Option ToolClient) (evalCond : CondEval)
        (exec : WorkflowExecution) (sr : List (String × Value))
        (step : WorkflowStep) (c : String),
        step.condition = some c → c ≠ "" → evalCond c exec.results = false →
        executeStep client evalCond exec sr step = (true, exec, sr))
      ∧ (∀ (client : Option ToolClient) (evalCond : CondEval)
          (exec : WorkflowExecution) (sr : List (String × Value))
          (i : Nat) (step : WorkflowStep) (c : String) (executed : List String),
          step.condition = some c → c ≠ "" → evalCond c exec.results = false →
          runRound client evalCond [(i, step)] exec sr executed =
            ({ exec with current_step := i + 1 }, sr,
              insertIfAbsent executed step.name)) := by
  have hstep : ∀ (client : Option ToolClient) (evalCond : CondEval)
      (exec : WorkflowExecution) (sr : List (String × Value))
      (step : WorkflowStep) (c : String),
      step.condition = some c → c ≠ "" → evalCond c exec.results = false →
      executeStep client evalCond exec sr step = (true, exec, sr) := by
    intro client evalCond exec sr step c hc hne hfalse
    have hbe : (c == "") = false := beq_eq_false_iff_ne.mpr hne
    simp [executeStep, stepProceed, hc, hbe, hfalse]
  refine ⟨hstep, ?_⟩
  intro client evalCond exec sr i step c executed hc hne hfalse
  simp [runRound, hstep client evalCond exec sr step c hc hne hfalse]

/-- Witness for `C4_amended_skip_records_nothing`. -/
theorem C4_amended_witness :
    executeStep none evalCondLiteral execAB [] stepA = (true, execAB, []) :=
  C4_amended_skip_records_nothing.1 none evalCondLiteral execAB [] stepA
    "False" rfl (by decide) rfl

/-! ## C5: execute_workflow on an unknown name -/

/-- C5: counterexample.  Executing an unregistered workflow name raises
(`ValueError`, embedded as `Except.error`) to the caller instead of
recording the failure in any execution's `errors` list. -/
theorem C5_counterexample :
    executeWorkflow Orchestrator.empty "missing" [] 0
      = .error "Workflow 'missing' not found" := rfl

/-- C5 (amended): `execute_workflow` on a name that is not registered
raises `ValueError` to its caller (the surrounding `except` re-raises);
no execution record is created, so nothing is recorded in any `errors`
list. -/
theorem C5_amended_unknown_name_raises :
    ∀ (o : Orchestrator) (name : String) (d : List (String × Value)) (t : Nat),
      dictGet o.workflows name = none →
      executeWorkflow o name d t
        = .error ("Workflow '" ++ name ++ "' not found") := by
  intro o name d t h
  simp [executeWorkflow, h]

/-- Witness for `C5_amended_unknown_name_raises`. -/
theorem C5_amended_witness :
    executeWorkflow Orchestrator.empty "nope" [] 3
      = .error ("Workflow '" ++ "nope" ++ "' not found") :=
  C5_amended_unknown_name_raises Orchestrator.empty "nope" [] 3 rfl

/-! ## C6: execution ids -/

/-- C6: counterexample.  Two `execute_workflow` calls during the same
second (`int(time.time()) = 7`) return the **same** id `w_7`, and the
second call's execution record replaces the first one in the store (the
stored record's metadata flips from `run = 1` to `run = 2`). -/
theorem C6_counterexample :
    executeWorkflow oRegOne "w" [("run", Value.vInt 1)] 7 = .ok ("w_7", oRunA)
      ∧ executeWorkflow oRunA "w" [("run", Value.vInt 2)] 7 = .ok ("w_7", oRunB)
      ∧ (dictGet oRunA.executions "w_7").map WorkflowExecution.metadata
          = some [("run", Value.vInt 1)]
      ∧ (dictGet oRunB.executions "w_7").map WorkflowExecution.metadata
          = some [("run", Value.vInt 2)] :=
  ⟨rfl, rfl, rfl, rfl⟩

/-- C6 (amended): the execution id is the workflow name plus the current
whole-second timestamp, so it is not globally unique: two executions of the
same workflow begun during the same second share one id and the later
call's fresh record replaces the earlier one in the execution store. -/
theorem C6_amended_same_second_ids_collide :
    ∀ (o : Orchestrator) (name : String) (steps : List WorkflowStep)
      (d₁ d₂ : List (String × Value)) (t : Nat),
      dictGet o.workflows name = some steps →
      ∃ o₁ o₂,
        executeWorkflow o name d₁ t = .ok (name ++ "_" ++ toString t, o₁)
          ∧ executeWorkflow o₁ name d₂ t = .ok (name ++ "_" ++ toString t, o₂)
          ∧ dictGet o₂.executions (name ++ "_" ++ toString t)
              = some { workflow_id := name ++ "_" ++ toString t
                       workflow_name := name
                       steps := steps
                       metadata := d₂ } := by
  intro o name steps d₁ d₂ t h
  have h1 : executeWorkflow o name d₁ t =
      .ok (name ++ "_" ++ toString t,
        { o with
            executions := dictSet o.executions (name ++ "_" ++ toString t)
              { workflow_id := name ++ "_" ++ toString t
                workflow_name := name
                steps := steps
                metadata := d₁ }
            stepResults :=
              dictSet o.stepResults (name ++ "_" ++ toString t) [] }) := by
    simp [executeWorkflow, h]
  have h2 : executeWorkflow
      { o with
          executions := dictSet o.executions (name ++ "_" ++ toString t)
            { workflow_id := name ++ "_" ++ toString t
              workflow_name := name
              steps := steps
              metadata := d₁ }
          stepResults :=
            dictSet o.stepResults (name ++ "_" ++ toString t) [] }
      name d₂ t =
      .ok (name ++ "_" ++ toString t,
        { o with
            executions := dictSet
              (dictSet o.executions (name ++ "_" ++ toString t)
                { workflow_id := name ++ "_" ++ toString t
                  workflow_name := name
                  steps := steps
                  metadata := d₁ })
              (name ++ "_" ++ toString t)
              { workflow_id := name ++ "_" ++ toString t
                workflow_name := name
                steps := steps
                metadata := d₂ }
            stepResults := dictSet
              (dictSet o.stepResults (name ++ "_" ++ toString t) [])
              (name ++ "_" ++ toString t) [] }) := by
    simp [executeWorkflow, h]
  exact ⟨_, _, h1, h2, dictGet_dictSet_self _ _ _⟩

/-- Witness for `C6_amended_same_second_ids_collide`. -/
theorem C6_amended_witness :
    ∃ o₁ o₂,
      executeWorkflow oRegOne "w" [] 9 = .ok ("w" ++ "_" ++ toString 9, o₁)
        ∧ executeWorkflow o₁ "w" [] 9 = .ok ("w" ++ "_" ++ toString 9, o₂)
        ∧ dictGet o₂.executions ("w" ++ "_" ++ toString 9)
            = some { workflow_id := "w" ++ "_" ++ toString 9
                     workflow_name := "w"
                     steps := [stepOne]
                     metadata := [] } :=
  C6_amended_same_second_ids_collide oRegOne "w" [stepOne] [] [] 9 rfl

/-! ## C7: parameter templating -/

/-- C7: counterexample.  `execMeta.metadata` binds `k`, yet the step whose
parameter is the template `{{k}}` has the literal string passed to its
capability call (observed through `echoClient`): the binder consults only
`execution.results`, not the metadata. -/
theorem C7_counterexample :
    dictGet execMeta.metadata "k" = some (Value.vStr "V")
      ∧ execMeta.results = []
      ∧ executeStep (some echoClient) evalCondLiteral execMeta [] stepTemplate
          = (true,
             { execMeta with results :=
                 [("t", Value.vDict
                   [("status", Value.vStr "success"),
                    ("got", Value.vDict [("p", Value.vStr "\x7b\x7bk\x7d\x7d")])])] },
             [("t", Value.vDict
               [("status", Value.vStr "success"),
                ("got", Value.vDict [("p", Value.vStr "\x7b\x7bk\x7d\x7d")])])]) := by
  refine ⟨rfl, rfl, ?_⟩
  rfl

/-- Distributing the parameter binder over list concatenation. -/
theorem prepareParameters_append (l₁ l₂ context : List (String × Value)) :
    prepareParameters (l₁ ++ l₂) context =
      prepareParameters l₁ context ++ prepareParameters l₂ context := by
  simp [prepareParameters]

/-- C7 (amended): the parameter binder resolves a double-brace template
against the context it is given — which, at its only call site inside
`_execute_step`, is `execution.results` alone; the caller-supplied
`metadata` is never consulted (changing it changes nothing but the carried
field).  A resolvable name is substituted; an unresolvable one passes the
original literal string through unchanged, never an error. -/
theorem C7_amended_binder_uses_results_only :
    (∀ (pre post context : List (String × Value)) (k s : String),
        pyStartsWith s "\x7b\x7b" = true → pyEndsWith s "\x7d\x7d" = true →
        dictGet context (pyStrip (pySlice2 s)) = none →
        prepareParameters (pre ++ [(k, Value.vStr s)] ++ post) context =
          prepareParameters pre context ++ [(k, Value.vStr s)]
            ++ prepareParameters post context)
      ∧ (∀ (pre post context : List (String × Value)) (k s : String)
          (v : Value),
          pyStartsWith s "\x7b\x7b" = true → pyEndsWith s "\x7d\x7d" = true →
          dictGet context (pyStrip (pySlice2 s)) = some v →
          prepareParameters (pre ++ [(k, Value.vStr s)] ++ post) context =
            prepareParameters pre context ++ [(k, v)]
              ++ prepareParameters post context)
      ∧ (∀ (client : Option ToolClient) (evalCond : CondEval)
          (exec : WorkflowExecution) (sr md : List (String × Value))
          (step : WorkflowStep),
          executeStep client evalCond { exec with metadata := md } sr step
            = ((executeStep client evalCond exec sr step).1,
               { (executeStep client evalCond exec sr step).2.1 with
                   metadata := md },
               (executeStep client evalCond exec sr step).2.2)) := by
  refine ⟨?_, ?_, ?_⟩
  · intro pre post context k s h1 h2 h3
    rw [prepareParameters_append, prepareParameters_append]
    simp [prepareParameters, h1, h2, h3]
  · intro pre post context k s v h1 h2 h3
    rw [prepareParameters_append, prepareParameters_append]
    simp [prepareParameters, h1, h2, h3]
  · intro client evalCond exec sr md step
    unfold executeStep
    have hres : WorkflowExecution.results { exec with metadata := md }
        = exec.results := rfl
    rw [hres]
    cases hp : stepProceed evalCond exec.results step
    · simp [hp]
    · cases hv : validateStepResult
          (toolResult client step (prepareParameters step.parameters exec.results))
          step.validation_rules
      · simp [hp, hv]
      · simp [hp, hv]

/-- Witness for `C7_amended_binder_uses_results_only`. -/
theorem C7_amended_witness :
    prepareParameters ([] ++ [("p", Value.vStr "\x7b\x7bk\x7d\x7d")] ++ []) []
      = prepareParameters [] [] ++ [("p", Value.vStr "\x7b\x7bk\x7d\x7d")]
          ++ prepareParameters [] [] :=
  C7_amended_binder_uses_results_only.1 [] [] [] "p" "\x7b\x7bk\x7d\x7d" rfl rfl rfl

/-! ## C9: cancel_execution -/

/-- C9: `cancel_execution` returns true exactly when the id is stored with
current status `running`, in which case the stored record's status becomes
`cancelled` and its `end_time` is stamped; in every other case (other
status or unknown id) it returns false and the orchestrator is unchanged. -/
theorem C9_cancel_only_running :
    ∀ (o : Orchestrator) (executionId : String) (now : Nat),
      ((cancelExecution o executionId now).1 = true
          ↔ ∃ e, dictGet o.executions executionId = some e
              ∧ e.status = .running)
        ∧ (∀ e, dictGet o.executions executionId = some e →
            e.status = .running →
            cancelExecution o executionId now =
              (true,
               { o with
                   executions :=
                     dictSet o.executions executionId
                       { e with
                           status := .cancelled
                           end_time := some now } }))
        ∧ ((∀ e, dictGet o.executions executionId = some e →
              e.status ≠ .running) →
            cancelExecution o executionId now = (false, o)) := by
  intro o executionId now
  refine ⟨?_, ?_, ?_⟩
  · cases h : dictGet o.executions executionId with
    | none => simp [cancelExecution, h]
    | some e =>
      by_cases hst : e.status = .running
      · simp [cancelExecution, h, hst]
      · simp [cancelExecution, h, hst]
  · intro e he hst
    simp [cancelExecution, he, hst]
  · intro hall
    cases h : dictGet o.executions executionId with
    | none => simp [cancelExecution, h]
    | some e => simp [cancelExecution, h, hall e h]

/-- Witness for `C9_cancel_only_running`. -/
theorem C9_witness :
    cancelExecution oStore "r_1" 5
      = (true,
         { oStore with
             executions :=
               dictSet oStore.executions "r_1"
                 { execRunning with
                     status := .cancelled
                     end_time := some 5 } }) :=
  (C9_cancel_only_running oStore "r_1" 5).2.1 execRunning rfl rfl

/-! ## C10: register_workflow never raises -/

/-- C10: `register_workflow` is total and returns a boolean: it returns
`False` exactly on its two failure paths (empty step list, detected cycle),
and on every failure the orchestrator — in particular the `workflows`
mapping — is returned exactly as it was. -/
theorem C10_register_failure_leaves_state :
    ∀ (o : Orchestrator) (name : String) (steps : List WorkflowStep),
      ((registerWorkflow o name steps).1 = false
          ↔ steps.isEmpty = true ∨ hasCircularDependencies steps = true)
        ∧ ((registerWorkflow o name steps).1 = false →
            (registerWorkflow o name steps).2 = o) := by
  intro o name steps
  cases h1 : steps.isEmpty with
  | true => simp [registerWorkflow, h1]
  | false =>
    cases h2 : hasCircularDependencies steps with
    | true => simp [registerWorkflow, h1, h2]
    | false => simp [registerWorkflow, h1, h2]

/-- Witness for `C10_register_failure_leaves_state`. -/
theorem C10_witness : (registerWorkflow oStore "e" []).2 = oStore :=
  (C10_register_failure_leaves_state oStore "e" []).2
    ((C10_register_failure_leaves_state oStore "e" []).1.mpr (Or.inl rfl))

/-! ## C8: cycle detection -/

theorem contains_true_iff (l : List String) (a : String) :
    l.contains a = true ↔ a ∈ l := by simp

theorem contains_false_iff (l : List String) (a : String) :
    l.contains a = false ↔ a ∉ l := by simp

/-- `Settled` is monotone in the visited set. -/
theorem Settled.mono_visited {steps : List WorkflowStep}
    {R V V' : List String} {x : String} (h : Settled steps R V x)
    (hsub : V ⊆ V') : Settled steps R V' x :=
  ⟨fun m hm => hsub (h.1 m hm), h.2.1, h.2.2⟩

/-- `Settled` is antitone in the pending stack. -/
theorem Settled.anti_stack {steps : List WorkflowStep}
    {R R' V : List String} {x : String} (h : Settled steps R' V x)
    (hsub : R ⊆ R') : Settled steps R V x :=
  ⟨h.1, fun r hr => h.2.1 r (hsub hr), h.2.2⟩

/-- The detection fold keeps a `true` accumulator unchanged. -/
theorem foldl_keep_true {α : Type} (key : α → String)
    (steps : List WorkflowStep) (fuel : Nat) (R : List String) :
    ∀ (ds : List α) (w : List String),
      ds.foldl (fun acc x => if acc.1 then acc
          else hasCycleFrom steps fuel (key x) acc.2 R) (true, w)
        = (true, w) := by
  intro ds
  induction ds with
  | nil => intro w; rfl
  | cons d rest ih => intro w; simpa using ih w

/-- A `false` outcome of folding `hasCycleFrom` over a list of names (each
obtained through `key`) settles every one of those names, assuming the
per-call property `IH` at this fuel. -/
theorem foldl_hasCycleFrom_false (steps : List WorkflowStep) (fuel : Nat)
    {α : Type} (key : α → String)
    (IH : ∀ (name : String) (V R V' : List String),
        CycleInv steps V R →
        hasCycleFrom steps fuel name V R = (false, V') →
        V ⊆ V' ∧ CycleInv steps V' R ∧ name ∉ R ∧ Settled steps R V' name) :
    ∀ (ds : List α) (V R V' : List String), CycleInv steps V R →
      ds.foldl (fun acc x => if acc.1 then acc
          else hasCycleFrom steps fuel (key x) acc.2 R) (false, V)
        = (false, V') →
      V ⊆ V' ∧ CycleInv steps V' R
        ∧ ∀ x ∈ ds, key x ∉ R ∧ Settled steps R V' (key x) := by
  intro ds
  induction ds with
  | nil =>
    intro V R V' hInv h
    simp only [List.foldl_nil, Prod.mk.injEq] at h
    exact ⟨h.2 ▸ List.Subset.refl V, h.2 ▸ hInv, by simp⟩
  | cons d rest ih =>
    intro V R V' hInv h
    simp only [List.foldl_cons] at h
    have hfirst : (if (false, V).1 then (false, V)
        else hasCycleFrom steps fuel (key d) V R)
        = hasCycleFrom steps fuel (key d) V R := by simp
    rw [hfirst] at h
    rcases hd : hasCycleFrom steps fuel (key d) V R with ⟨b1, V1⟩
    rw [hd] at h
    cases b1 with
    | true =>
      rw [foldl_keep_true key steps fuel R] at h
      simp at h
    | false =>
      obtain ⟨hsub1, hInv1, hdR, hdS⟩ := IH (key d) V R V1 hInv hd
      obtain ⟨hsub2, hInv2, hrest⟩ := ih V1 R V' hInv1 h
      refine ⟨fun y hy => hsub2 (hsub1 hy), hInv2, ?_⟩
      intro x hx
      rcases List.mem_cons.mp hx with hxd | hxr
      · exact hxd ▸ ⟨hdR, hdS.mono_visited hsub2⟩
      · exact hrest x hxr

/-- When `has_cycle` returns `False` from `name`, everything reachable from
`name` has been visited, `name` reaches nothing on the recursion stack, and
`name` lies on no cycle; the visited-set invariant is preserved. -/
theorem hasCycleFrom_false_settled (steps : List WorkflowStep) :
    ∀ (fuel : Nat) (name : String) (V R V' : List String),
      CycleInv steps V R →
      hasCycleFrom steps fuel name V R = (false, V') →
      V ⊆ V' ∧ CycleInv steps V' R ∧ name ∉ R ∧ Settled steps R V' name := by
  intro fuel
  induction fuel with
  | zero =>
    intro name V R V' _ h
    simp [hasCycleFrom] at h
  | succ fuel ih =>
    intro name V R V' hInv h
    rw [hasCycleFrom] at h
    cases hR : R.contains name with
    | true => rw [hR] at h; simp at h
    | false =>
      rw [hR] at h
      have hnameR : name ∉ R := (contains_false_iff R name).mp hR
      cases hV : V.contains name with
      | true =>
        rw [hV] at h
        simp only [Bool.false_eq_true, if_false, if_true, Prod.mk.injEq] at h
        have hnameV : name ∈ V := (contains_true_iff V name).mp hV
        refine ⟨h.2 ▸ List.Subset.refl V, h.2 ▸ hInv, hnameR, ?_⟩
        exact h.2 ▸ hInv name hnameV hnameR
      | false =>
        rw [hV] at h
        simp only [Bool.false_eq_true, if_false] at h
        have hnameV : name ∉ V := (contains_false_iff V name).mp hV
        have hInv1 : CycleInv steps (name :: V) (name :: R) := by
          intro x hx hxR
          have hxn : x ≠ name := fun hxe => hxR (hxe ▸ List.mem_cons_self name R)
          have hxV : x ∈ V := by
            rcases List.mem_cons.mp hx with he | hm
            · exact absurd he hxn
            · exact hm
          have hxRold : x ∉ R := fun hc => hxR (List.mem_cons_of_mem name hc)
          obtain ⟨hclosed, hnoreach, hnotbad⟩ := hInv x hxV hxRold
          refine ⟨fun m hm => List.mem_cons_of_mem name (hclosed m hm), ?_, hnotbad⟩
          intro r hr
          rcases List.mem_cons.mp hr with he | hm
          · exact fun hre => hnameV (he ▸ hclosed _ (he ▸ hre))
          · exact hnoreach r hm
        obtain ⟨hsub1, hInv', hdeps⟩ :=
          foldl_hasCycleFrom_false steps fuel (fun d => d) ih
            (depsOf steps name) (name :: V) (name :: R) V' hInv1 h
        have hnameV' : name ∈ V' := hsub1 (List.mem_cons_self name V)
        have hsettled : Settled steps R V' name := by
          refine ⟨?_, ?_, ?_⟩
          · intro m hm
            rcases Relation.ReflTransGen.cases_head hm with he | ⟨c, hedge, hrest⟩
            · exact he ▸ hnameV'
            · exact (hdeps c hedge).2.1 m hrest
          · intro r hrR hre
            rcases Relation.ReflTransGen.cases_head hre with he | ⟨c, hedge, hrest⟩
            · exact hnameR (he ▸ hrR)
            · exact (hdeps c hedge).2.2.1 r (List.mem_cons_of_mem name hrR) hrest
          · rintro ⟨d, hedge, hre⟩
            exact (hdeps d hedge).2.2.1 name (List.mem_cons_self name R) hre
        refine ⟨fun y hy => hsub1 (List.mem_cons_of_mem name hy), ?_, hnameR, hsettled⟩
        intro x hxV' hxR
        by_cases hxn : x = name
        · exact hxn ▸ hsettled
        · have hxR1 : x ∉ name :: R := by
            intro hc
            rcases List.mem_cons.mp hc with he | hm
            · exact hxn he
            · exact hxR hm
          exact (hInv' x hxV' hxR1).anti_stack
            (fun _ hy => List.mem_cons_of_mem name hy)

/-- A name with an outgoing first-match edge is the name of a stored step. -/
theorem stepEdgeFst_src (steps : List WorkflowStep) (a b : String)
    (h : stepEdgeFst steps a b) : ∃ s ∈ steps, s.name = a := by
  unfold stepEdgeFst depsOf at h
  cases hf : steps.find? (fun s => s.name == a) with
  | none => rw [hf] at h; simp at h
  | some s =>
    exact ⟨s, List.mem_of_find?_eq_some hf, by simpa using List.find?_some hf⟩

/-- Completeness of `_has_circular_dependencies` over first-match edges:
whenever some node lies on a `depends_on` cycle, the traversal reports
`True`. -/
theorem hasCircularDependencies_complete (steps : List WorkflowStep)
    (h : ∃ a b, stepEdgeFst steps a b ∧ StepReaches steps b a) :
    hasCircularDependencies steps = true := by
  obtain ⟨a, b, hedge, hreach⟩ := h
  by_contra hfalse
  have hf : hasCircularDependencies steps = false := by
    cases hres : hasCircularDependencies steps
    · rfl
    · exact absurd hres hfalse
  unfold hasCircularDependencies at hf
  rcases hE : steps.foldl (fun acc step => if acc.1 then acc
      else hasCycleFrom steps (cycleFuel steps) step.name acc.2 [])
      (false, []) with ⟨bres, Vres⟩
  rw [hE] at hf
  have hb : bres = false := hf
  subst hb
  obtain ⟨-, -, hall⟩ := foldl_hasCycleFrom_false steps (cycleFuel steps)
    WorkflowStep.name (hasCycleFrom_false_settled steps (cycleFuel steps))
    steps [] [] Vres (fun x hx _ => absurd hx (List.not_mem_nil x)) hE
  obtain ⟨s, hs, hname⟩ := stepEdgeFst_src steps a b hedge
  have hsettled := (hall s hs).2
  rw [hname] at hsettled
  exact hsettled.2.2 ⟨b, hedge, hreach⟩

/-- Under pairwise-distinct step names the existential edge relation
implies the first-match one. -/
theorem stepEdge_fst_of_nodup (steps : List WorkflowStep) (a b : String)
    (hnd : (steps.map WorkflowStep.name).Nodup) (he : stepEdge steps a b) :
    stepEdgeFst steps a b := by
  obtain ⟨s, hs, hname, hdep⟩ := he
  have hsome : (steps.find? (fun t => t.name == a)).isSome :=
    List.find?_isSome.mpr ⟨s, hs, by simp [hname]⟩
  obtain ⟨t, ht⟩ := Option.isSome_iff_exists.mp hsome
  have htm : t ∈ steps := List.mem_of_find?_eq_some ht
  have htn : t.name = a := by simpa using List.find?_some ht
  have hts : t = s := List.inj_on_of_nodup_map hnd htm hs (by rw [htn, hname])
  show b ∈ depsOf steps a
  unfold depsOf
  rw [ht, hts]
  exact hdep

/-- C8: counterexample.  The step list `[dupA1, dupA2]` contains a step
(`dupA2`) that depends on itself — a cycle in the `depends_on` edges — yet
`register_workflow` accepts and stores it: the `next(...)` lookup only ever
follows the first step of each name, so a self-dependency on a duplicated
name escapes the traversal. -/
theorem C8_counterexample :
    dupA2 ∈ [dupA1, dupA2]
      ∧ dupA2.name ∈ dupA2.depends_on
      ∧ StepsHaveCycle [dupA1, dupA2]
      ∧ (registerWorkflow Orchestrator.empty "dup" [dupA1, dupA2]).1 = true
      ∧ dictGet (registerWorkflow Orchestrator.empty "dup"
          [dupA1, dupA2]).2.workflows "dup" = some [dupA1, dupA2] := by
  refine ⟨by decide, by decide, ?_, rfl, rfl⟩
  exact ⟨"a", "a", ⟨dupA2, by decide, rfl, by decide⟩, .refl⟩

/-- C8 (amended): for every step list with pairwise-distinct step names
whose `depends_on` edges contain a cycle — a direct self-dependency
included — `register_workflow` fails the circular-dependency validation,
returns `False`, and leaves the orchestrator (in particular its registry)
unchanged.  (With a duplicated step name a cycle through the shadowed step
can escape detection: see `C8_counterexample`.) -/
theorem C8_amended_cycle_rejected :
    ∀ (o : Orchestrator) (name : String) (steps : List WorkflowStep),
      (steps.map WorkflowStep.name).Nodup →
      StepsHaveCycle steps →
      registerWorkflow o name steps = (false, o) := by
  intro o name steps hnd hcyc
  obtain ⟨a, b, hedge, hreach⟩ := hcyc
  have hne : steps.isEmpty = false := by
    obtain ⟨s, hs, -⟩ := hedge
    cases steps with
    | nil => exact absurd hs (List.not_mem_nil s)
    | cons _ _ => rfl
  have hfst : stepEdgeFst steps a b := stepEdge_fst_of_nodup steps a b hnd hedge
  have hreachfst : StepReaches steps b a :=
    Relation.ReflTransGen.mono
      (fun x y hxy => stepEdge_fst_of_nodup steps x y hnd hxy) hreach
  have hcirc : hasCircularDependencies steps = true :=
    hasCircularDependencies_complete steps ⟨a, b, hfst, hreachfst⟩
  simp [registerWorkflow, hne, hcirc]

/-- Witness for `C8_amended_cycle_rejected`. -/
theorem C8_amended_witness :
    registerWorkflow Orchestrator.empty "cyc" cycSteps
      = (false, Orchestrator.empty) :=
  C8_amended_cycle_rejected Orchestrator.empty "cyc" cycSteps (by decide)
    ⟨"ca", "cb",
      ⟨{ name := "ca", depends_on := ["cb"] }, by decide, rfl, by decide⟩,
      Relation.ReflTransGen.single
        ⟨{ name := "cb", depends_on := ["ca"] }, by decide, rfl, by decide⟩⟩
